import Mathlib

/-!
Verification of the snow-retail review-analysis application
(`src/handson2/sis_snowretail_analysis_mvp.py`).

The application is glue over a managed data/AI platform: every remote
platform function (TRANSLATE, SENTIMENT, SPLIT_TEXT_RECURSIVE_CHARACTER,
EMBED_TEXT_1024, CLASSIFY_TEXT, COMPLETE) is modelled as a field of an
`Oracle` parameter returning `Except String _` (an `error` result models a
thrown exception / failed remote call).  The managed tables are modelled as
lists of rows in a `DB` record; SQL statements issued by the code are
embedded as pure functions over `DB`.
-/

namespace SnowRetail

/-- A row of `CUSTOMER_REVIEWS` (the immutable source table). -/
structure Review where
  review_id : String
  product_id : String
  customer_id : String
  rating : Rat
  review_text : String
  review_date : String
  purchase_channel : String
  helpful_votes : Nat
  deriving DecidableEq

/-- A row of `CUSTOMER_ANALYSIS` (one text segment of a review, with its
embedding and the review-level sentiment score).  `embedding` is an `Option`
because the column is nullable (`WHERE ca.embedding IS NOT NULL` in the
vector-search query). -/
structure AnalysisRow where
  review_id : String
  product_id : String
  customer_id : String
  rating : Rat
  review_text : String
  review_date : String
  purchase_channel : String
  helpful_votes : Nat
  chunked_text : String
  embedding : Option (List Rat)
  sentiment_score : Rat
  deriving DecidableEq

/-- A row of `REVIEW_TAGS`. -/
structure TagRow where
  review_id : String
  category_name : String
  confidence_score : Rat
  deriving DecidableEq

/-- A row of `REVIEW_WORDS`.  `review_id` is an `Option` because the column
is nullable and the keyword pipeline can insert a row whose id came back as
JSON null from the model. -/
structure WordRow where
  review_id : Option String
  word : String
  word_type : String
  frequency : Int
  deriving DecidableEq

/-- The managed tables the claims are about. -/
structure DB where
  customer_reviews : List Review
  customer_analysis : List AnalysisRow
  review_categories : List String
  review_tags : List TagRow
  review_words : List WordRow
  deriving DecidableEq

/-- One keyword entry of the parsed structured-output response of the
COMPLETE call (after JSON parsing each field may be absent). -/
structure RawWord where
  word : Option String
  word_type : Option String
  frequency : Option Int
  deriving DecidableEq

/-- One per-review entry of the parsed `reviews_analysis` array returned by
the COMPLETE call in the keyword-extraction pipeline. -/
structure RawEntry where
  review_id : Option String
  words : List RawWord
  deriving DecidableEq

/-- The remote platform functions, as fallible oracles.  `Except.error`
models a raised exception (connection failure, malformed response, ...). -/
structure Oracle where
  translate : String → Except String String
  sentiment : String → Except String Rat
  splitText : String → Except String (List String)
  embed : String → String → Except String (List Rat)
  classify : String → List String → Except String (Option String)
  complete : String → List (String × String) → Except String (List RawEntry)

/-! ## Review ingestion pipeline (`process_review_chunks`) -/

/-- The anti-join selection of `process_review_chunks`:
`SELECT r.* FROM CUSTOMER_REVIEWS r LEFT JOIN CUSTOMER_ANALYSIS a
 ON r.review_id = a.review_id WHERE a.review_id IS NULL`. -/
def notYetAnalyzed (db : DB) : List Review :=
  db.customer_reviews.filter
    (fun r => decide (∀ a ∈ db.customer_analysis, a.review_id ≠ r.review_id))

/-- The `CUSTOMER_ANALYSIS` row inserted for one chunk of one review. -/
def analysisRowOf (r : Review) (chunk : String) (vec : List Rat)
    (score : Rat) : AnalysisRow :=
  { review_id := r.review_id
    product_id := r.product_id
    customer_id := r.customer_id
    rating := r.rating
    review_text := r.review_text
    review_date := r.review_date
    purchase_channel := r.purchase_channel
    helpful_votes := r.helpful_votes
    chunked_text := chunk
    embedding := some vec
    sentiment_score := score }

/-- `INSERT INTO CUSTOMER_ANALYSIS ...` for one chunk of one review. -/
def insertAnalysis (db : DB) (r : Review) (chunk : String) (vec : List Rat)
    (score : Rat) : DB :=
  { db with customer_analysis :=
      db.customer_analysis ++ [analysisRowOf r chunk vec score] }

/-- The inner chunk loop of `process_review_chunks`: embed each chunk and
insert one `CUSTOMER_ANALYSIS` row carrying the review-level sentiment
score.  Returns the updated DB, the number of chunks inserted, and whether
every chunk succeeded (an embedding failure raises, aborting the run but
keeping the rows already inserted). -/
def insertChunkRows (o : Oracle) (model : String) (r : Review) (score : Rat) :
    List String → DB → Nat → DB × Nat × Bool
  | [], db, acc => (db, acc, true)
  | c :: cs, db, acc =>
    match o.embed model c with
    | .error _ => (db, acc, false)
    | .ok vec => insertChunkRows o model r score cs (insertAnalysis db r c vec score) (acc + 1)

/-- Processing of one review inside `process_review_chunks`: translate the
full text, compute one sentiment score from the translation, split the
original text into chunks, then embed and insert each chunk. -/
def processOneReview (o : Oracle) (model : String) (db : DB) (r : Review) :
    DB × Nat × Bool :=
  match o.translate r.review_text with
  | .error _ => (db, 0, false)
  | .ok translated =>
    match o.sentiment translated with
    | .error _ => (db, 0, false)
    | .ok score =>
      match o.splitText r.review_text with
      | .error _ => (db, 0, false)
      | .ok chunks => insertChunkRows o model r score chunks db 0

/-- The review loop of `process_review_chunks`.  There is no per-review
exception handler in the source: the first failure aborts the whole loop
(the surrounding try/except catches it at function level). -/
def runReviews (o : Oracle) (model : String) :
    List Review → DB → Nat → DB × Nat × Bool
  | [], db, acc => (db, acc, true)
  | r :: rest, db, acc =>
    match processOneReview o model db r with
    | (db', n, true) => runReviews o model rest db' (acc + n)
    | (db', n, false) => (db', acc + n, false)

/-- Result of one run of `process_review_chunks`. -/
structure ChunksResult where
  db : DB
  ok : Bool
  reviewsSelected : Nat
  chunksProcessed : Nat
  deriving DecidableEq

/-- `process_review_chunks`: select the not-yet-analyzed reviews and process
them sequentially; any exception ends the run with `False`. -/
def process_review_chunks (o : Oracle) (model : String) (db : DB) : ChunksResult :=
  let reviews := notYetAnalyzed db
  if reviews.isEmpty then
    { db := db, ok := true, reviewsSelected := 0, chunksProcessed := 0 }
  else
    match runReviews o model reviews db 0 with
    | (db', n, ok) =>
      { db := db', ok := ok, reviewsSelected := reviews.length, chunksProcessed := n }

/-! ## Category management and classification pipeline -/

/-- `get_review_categories`: `SELECT category_name FROM REVIEW_CATEGORIES
ORDER BY category_name`. -/
def get_review_categories (db : DB) : List String :=
  db.review_categories.insertionSort (fun a b => a ≤ b)

/-- `delete_review_category`: delete the category row(s) with the given
name, then delete the `REVIEW_TAGS` rows with that category name.  No other
table is touched. -/
def delete_review_category (db : DB) (category_name : String) : DB × Bool :=
  ({ db with
      review_categories := db.review_categories.filter (fun n => decide (n ≠ category_name))
      review_tags := db.review_tags.filter (fun t => decide (t.category_name ≠ category_name)) },
   true)

/-- The anti-join selection of `generate_review_tags`:
reviews with no `REVIEW_TAGS` row. -/
def untaggedReviews (db : DB) : List Review :=
  db.customer_reviews.filter
    (fun r => decide (∀ t ∈ db.review_tags, t.review_id ≠ r.review_id))

/-- `INSERT INTO REVIEW_TAGS (review_id, category_name, confidence_score)
VALUES (?, ?, 1.0)`. -/
def insertTag (db : DB) (rid : String) (cat : String) : DB :=
  { db with review_tags := db.review_tags ++
      [{ review_id := rid, category_name := cat, confidence_score := 1 }] }

/-- The per-review loop of `generate_review_tags`.  Each iteration is
wrapped in its own try/except: a failed CLASSIFY_TEXT call (or parse) skips
the insert but the loop continues.  `classification.get('label', 'その他')`
falls back to `その他` only when the response has no label field. -/
def tagLoop (o : Oracle) (cats : List String) :
    List Review → DB → Nat → Nat → DB × Nat × Nat
  | [], db, processed, succeeded => (db, processed, succeeded)
  | r :: rest, db, processed, succeeded =>
    match o.classify r.review_text cats with
    | .error _ => tagLoop o cats rest db (processed + 1) succeeded
    | .ok resp =>
        tagLoop o cats rest (insertTag db r.review_id (resp.getD "その他"))
          (processed + 1) (succeeded + 1)

/-- Result of one run of `generate_review_tags`. -/
structure TagsResult where
  db : DB
  ok : Bool
  processedCount : Nat
  successCount : Nat
  deriving DecidableEq

/-- `generate_review_tags`: load the category list (early `False` return
when empty), select untagged reviews, classify each and insert one tag row;
per-review failures are caught and the function still returns `True`. -/
def generate_review_tags (o : Oracle) (db : DB) : TagsResult :=
  let cats := get_review_categories db
  if cats.isEmpty then
    { db := db, ok := false, processedCount := 0, successCount := 0 }
  else
    let reviews := untaggedReviews db
    if reviews.isEmpty then
      { db := db, ok := true, processedCount := 0, successCount := 0 }
    else
      match tagLoop o cats reviews db 0 0 with
      | (db', p, s) => { db := db', ok := true, processedCount := p, successCount := s }

/-! ## Keyword-extraction pipeline (`extract_important_words`) -/

/-- The anti-join selection of `extract_important_words`: reviews with no
`REVIEW_WORDS` row (a NULL `review_id` in `REVIEW_WORDS` matches no
review). -/
def notYetExtracted (db : DB) : List Review :=
  db.customer_reviews.filter
    (fun r => decide (∀ w ∈ db.review_words, w.review_id ≠ some r.review_id))

/-- `for i in range(0, len(reviews), batch_size)` with `batch_size = 10`:
partition the selected reviews into consecutive batches of ten. -/
def toBatches : List Review → List (List Review)
  | [] => []
  | x :: xs => (x :: xs).take 10 :: toBatches ((x :: xs).drop 10)
  termination_by l => l.length
  decreasing_by simp [List.length_drop]; omega

/-- Python truthiness of the parsed `review_id` field:
`not review_id` is true for JSON null and for the empty string. -/
def ridFalsy : Option String → Bool
  | none => true
  | some s => s == ""

/-- The guard `if not review_id or review_id not in batch_reviews_ids`. -/
def ridMissingOrUnmatched (batch : List Review) (rid : Option String) : Bool :=
  ridFalsy rid ||
    match rid with
    | none => true
    | some s => decide (∀ r ∈ batch, r.review_id ≠ s)

/-- The id reconciliation of `extract_important_words`: an entry whose id is
missing or matches no id of the batch is reassigned the id of the batch
review at the entry's position — but only while `local_processed <
len(batch)`; past the end of the batch the entry keeps its id. -/
def reconcileId (batch : List Review) (pos : Nat) (rid : Option String) :
    Option String :=
  if ridMissingOrUnmatched batch rid then
    match batch[pos]? with
    | some r => some r.review_id
    | none => rid
  else rid

/-- `INSERT INTO REVIEW_WORDS (review_id, word, word_type, frequency)`. -/
def insertWord (db : DB) (rid : Option String) (w : String) (t : String)
    (f : Int) : DB :=
  { db with review_words := db.review_words ++
      [{ review_id := rid, word := w, word_type := t, frequency := f }] }

/-- The word loop for one result entry: a word entry missing any of the
three required fields is discarded, the others are inserted with the
reconciled review id. -/
def insertWords (rid : Option String) :
    List RawWord → DB → Nat → DB × Nat
  | [], db, count => (db, count)
  | w :: ws, db, count =>
    match w.word, w.word_type, w.frequency with
    | some word, some t, some f => insertWords rid ws (insertWord db rid word t f) (count + 1)
    | _, _, _ => insertWords rid ws db count

/-- The entry loop over the parsed `reviews_analysis` array (`local_processed`
is incremented for every entry, matched or not). -/
def processEntries (batch : List Review) :
    List RawEntry → Nat → DB → Nat → DB × Nat
  | [], _, db, words => (db, words)
  | e :: rest, localProcessed, db, words =>
    let rid := reconcileId batch localProcessed e.review_id
    match insertWords rid e.words db words with
    | (db', words') => processEntries batch rest (localProcessed + 1) db' words'

/-- Result of one run of `extract_important_words`. -/
structure WordsResult where
  db : DB
  ok : Bool
  processedCount : Nat
  wordsExtracted : Nat
  deriving DecidableEq

/-- The batch loop of `extract_important_words`: one COMPLETE call per
batch; a batch-level exception is caught, nothing is inserted for the
batch, and `processed_count` still advances by the batch size. -/
def extractLoop (o : Oracle) (model : String) :
    List (List Review) → DB → Nat → Nat → DB × Nat × Nat
  | [], db, processed, words => (db, processed, words)
  | batch :: rest, db, processed, words =>
    match o.complete model (batch.map (fun r => (r.review_id, r.review_text))) with
    | .error _ => extractLoop o model rest db (processed + batch.length) words
    | .ok entries =>
      match processEntries batch entries 0 db words with
      | (db', words') => extractLoop o model rest db' (processed + batch.length) words'

/-- `extract_important_words`: select the not-yet-extracted reviews,
process them in batches of ten, return `True` with the progress counters. -/
def extract_important_words (o : Oracle) (model : String) (db : DB) : WordsResult :=
  let reviews := notYetExtracted db
  if reviews.isEmpty then
    { db := db, ok := true, processedCount := 0, wordsExtracted := 0 }
  else
    match extractLoop o model (toBatches reviews) db 0 0 with
    | (db', p, w) => { db := db', ok := true, processedCount := p, wordsExtracted := w }

/-! ## Vector search (`render_vector_search`, query execution) -/

/-- One result row of the vector-search query (the selected columns,
including the computed `similarity_score`). -/
structure SearchRow where
  review_id : String
  product_id : String
  rating : Rat
  review_text : String
  review_date : String
  purchase_channel : String
  helpful_votes : Nat
  chunked_text : String
  sentiment_score : Rat
  category_name : Option String
  similarity_score : Rat
  deriving DecidableEq

/-- The FROM/JOIN part of the search query: `CUSTOMER_ANALYSIS` inner-joined
to `CUSTOMER_REVIEWS` on `review_id`, left-joined to `REVIEW_TAGS`, keeping
only rows with a non-NULL embedding.  `sim` is the external
`VECTOR_COSINE_SIMILARITY` function, `qvec` the embedded query. -/
def searchCandidates (sim : List Rat → List Rat → Rat) (qvec : List Rat)
    (db : DB) : List SearchRow :=
  db.customer_analysis.flatMap (fun ca =>
    match ca.embedding with
    | none => []
    | some v =>
      (db.customer_reviews.filter (fun r => decide (ca.review_id = r.review_id))).flatMap
        (fun r =>
          let tags := db.review_tags.filter (fun t => decide (r.review_id = t.review_id))
          let cats : List (Option String) :=
            if tags.isEmpty then [none] else tags.map (fun t => some t.category_name)
          cats.map (fun c =>
            { review_id := ca.review_id
              product_id := r.product_id
              rating := r.rating
              review_text := r.review_text
              review_date := r.review_date
              purchase_channel := r.purchase_channel
              helpful_votes := r.helpful_votes
              chunked_text := ca.chunked_text
              sentiment_score := ca.sentiment_score
              category_name := c
              similarity_score := sim v qvec })))

/-- The full search query: filter to `similarity_score >= min_score`,
`ORDER BY similarity_score DESC`, `LIMIT top_k`. -/
def vector_search (sim : List Rat → List Rat → Rat) (qvec : List Rat)
    (minScore : Rat) (topK : Nat) (db : DB) : List SearchRow :=
  ((searchCandidates sim qvec db).filter
      (fun row => decide (minScore ≤ row.similarity_score))).insertionSort
    (fun a b => b.similarity_score ≤ a.similarity_score) |>.take topK

/-- The search execution in `render_vector_search`: embed the query text
(one oracle call inside the SQL), then run the query.  A failure is caught
and shown; no rows are returned. -/
def run_vector_search (o : Oracle) (sim : List Rat → List Rat → Rat)
    (model query : String) (minScore : Rat) (topK : Nat) (db : DB) :
    Except String (List SearchRow) :=
  match o.embed model query with
  | .error e => .error e
  | .ok qvec => .ok (vector_search sim qvec minScore topK db)

/-! ## Chunking (modelled from the spec) -/

/-- Modelled from the spec: `SNOWFLAKE.CORTEX.SPLIT_TEXT_RECURSIVE_CHARACTER`
is a managed platform function whose implementation is not in this
repository; the code calls it with boundary mode `none`, max length 300 and
overlap 30.  Spec §6: "(text, boundary-mode, max-length, overlap) → ordered
list of text segments"; §3/§8: segments are ≤300 characters with a
30-character overlap with their neighbour.  Text is modelled as a list of
characters; each segment after the first starts 270 characters after its
predecessor. -/
def splitText300 (t : List Char) : List (List Char) :=
  if t.length ≤ 300 then [t]
  else t.take 300 :: splitText300 (t.drop 270)
  termination_by t.length
  decreasing_by simp [List.length_drop]; omega

/-- Concatenation of the segments after the first, each with its
30-character overlap removed. -/
def tailJoin (l : List (List Char)) : List Char :=
  (l.map (fun s => s.drop 30)).flatten

/-- Concatenation of an ordered segment list with the 30-character overlaps
removed: the first segment in full, every later segment minus its first 30
characters. -/
def reassemble : List (List Char) → List Char
  | [] => []
  | s :: rest => s ++ tailJoin rest

/-- The single sentiment score the pipeline computes for a review:
the SENTIMENT of the TRANSLATE of the full review text. -/
def reviewScore (o : Oracle) (r : Review) : Option Rat :=
  match o.translate r.review_text with
  | .error _ => none
  | .ok translated =>
    match o.sentiment translated with
    | .error _ => none
    | .ok score => some score

/-! ## Closed forms for the keyword-extraction inserts -/

/-- The word entries of one result entry that pass the three-field
validation (`all(k in word for k in ['word', 'type', 'frequency'])`). -/
def validWords (ws : List RawWord) : List (String × String × Int) :=
  ws.filterMap (fun w =>
    match w.word, w.word_type, w.frequency with
    | some a, some b, some c => some (a, b, c)
    | _, _, _ => none)

/-- The `REVIEW_WORDS` row built from a validated word triple and a review
id. -/
def wordRowOf (rid : Option String) (x : String × String × Int) : WordRow :=
  { review_id := rid, word := x.1, word_type := x.2.1, frequency := x.2.2 }

/-- The `REVIEW_WORDS` rows inserted for the result entry at position `pos`
of a batch: its validated words, each carrying the reconciled review id. -/
def entryRows (batch : List Review) (pos : Nat) (e : RawEntry) : List WordRow :=
  (validWords e.words).map (wordRowOf (reconcileId batch pos e.review_id))

/-- The `REVIEW_WORDS` rows inserted for a whole parsed response, entries
numbered from `pos`. -/
def entriesRows (batch : List Review) : Nat → List RawEntry → List WordRow
  | _, [] => []
  | pos, e :: rest => entryRows batch pos e ++ entriesRows batch (pos + 1) rest

/-! ## Concrete fixtures used by witnesses and counterexamples -/

/-- A concrete review. -/
def rvA : Review :=
  { review_id := "A", product_id := "P1", customer_id := "C1", rating := 4,
    review_text := "textA", review_date := "2024-01-01",
    purchase_channel := "EC", helpful_votes := 0 }

/-- A second concrete review. -/
def rvB : Review :=
  { review_id := "B", product_id := "P2", customer_id := "C2", rating := 5,
    review_text := "textB", review_date := "2024-01-02",
    purchase_channel := "Retail", helpful_votes := 1 }

/-- A database holding the two reviews, one registered category and no
derived rows. -/
def dbAB : DB :=
  { customer_reviews := [rvA, rvB], customer_analysis := [],
    review_categories := ["価格"], review_tags := [], review_words := [] }

/-- A database holding one review, one registered category and no derived
rows. -/
def dbA : DB :=
  { customer_reviews := [rvA], customer_analysis := [],
    review_categories := ["価格"], review_tags := [], review_words := [] }

/-- An oracle on which every remote call succeeds. -/
def oBase : Oracle :=
  { translate := fun t => .ok t
    sentiment := fun _ => .ok 1
    splitText := fun t => .ok [t]
    embed := fun _ _ => .ok [1]
    classify := fun _ _ => .ok (some "価格")
    complete := fun _ _ => .ok [] }

/-- An oracle whose TRANSLATE call throws exactly on review A's text. -/
def oFailA : Oracle :=
  { oBase with translate := fun t => if t == "textA" then .error "boom" else .ok t }

/-- An oracle whose COMPLETE (structured generation) call always throws. -/
def oCompleteFail : Oracle :=
  { oBase with complete := fun _ _ => .error "boom" }

/-- An oracle whose CLASSIFY_TEXT response carries a label outside every
registered category set. -/
def oBadLabel : Oracle :=
  { oBase with classify := fun _ _ => .ok (some "未登録カテゴリ") }

/-- An oracle whose CLASSIFY_TEXT call always throws. -/
def oClassifyFail : Oracle :=
  { oBase with classify := fun _ _ => .error "boom" }

/-- A parsed keyword-extraction entry whose review id matches no review of
any batch in the fixtures. -/
def entZ : RawEntry :=
  { review_id := some "ZZZ",
    words := [{ word := some "りんご", word_type := some "名詞",
                frequency := some 3 }] }

/-! ## Claim C7: deleting a category -/

/-- C7: deleting category `c` removes `c` from the category table and every
tag row whose category name is `c`; all other categories and tags survive,
and the segment (`CUSTOMER_ANALYSIS`), keyword (`REVIEW_WORDS`) and source
review tables are left unchanged. -/
theorem c7_delete_category_frame (db : DB) (c : String) :
    (∀ n ∈ (delete_review_category db c).1.review_categories, n ≠ c) ∧
    (∀ t ∈ (delete_review_category db c).1.review_tags, t.category_name ≠ c) ∧
    (∀ n ∈ db.review_categories, n ≠ c → n ∈ (delete_review_category db c).1.review_categories) ∧
    (∀ t ∈ db.review_tags, t.category_name ≠ c → t ∈ (delete_review_category db c).1.review_tags) ∧
    (delete_review_category db c).1.customer_analysis = db.customer_analysis ∧
    (delete_review_category db c).1.review_words = db.review_words ∧
    (delete_review_category db c).1.customer_reviews = db.customer_reviews := by
  refine ⟨?_, ?_, ?_, ?_, rfl, rfl, rfl⟩ <;>
    simp [delete_review_category, List.mem_filter] <;> tauto

/-- C7 witness: the invariants at a concrete state. -/
theorem c7_witness :
    (∀ n ∈ (delete_review_category
        { customer_reviews := [], customer_analysis := [],
          review_categories := ["価格", "鮮度"],
          review_tags := [{ review_id := "A", category_name := "価格", confidence_score := 1 }],
          review_words := [] } "価格").1.review_categories, n ≠ "価格") ∧
    (∀ t ∈ (delete_review_category
        { customer_reviews := [], customer_analysis := [],
          review_categories := ["価格", "鮮度"],
          review_tags := [{ review_id := "A", category_name := "価格", confidence_score := 1 }],
          review_words := [] } "価格").1.review_tags, t.category_name ≠ "価格") :=
  ⟨(c7_delete_category_frame _ "価格").1, (c7_delete_category_frame _ "価格").2.1⟩

/-! ## Claim C6: vector search result shape -/

/-- C6: for every similarity function, query vector, threshold and limit,
the rows returned by the vector-search query all have similarity at least
the threshold, are ordered by non-increasing similarity, and number at most
the limit. -/
theorem c6_vector_search_contract (sim : List Rat → List Rat → Rat)
    (qvec : List Rat) (minScore : Rat) (topK : Nat) (db : DB) :
    (∀ row ∈ vector_search sim qvec minScore topK db,
        minScore ≤ row.similarity_score) ∧
    List.Sorted (fun a b : SearchRow => b.similarity_score ≤ a.similarity_score)
      (vector_search sim qvec minScore topK db) ∧
    (vector_search sim qvec minScore topK db).length ≤ topK := by
  haveI htot : IsTotal SearchRow (fun a b => b.similarity_score ≤ a.similarity_score) :=
    ⟨fun a b => le_total b.similarity_score a.similarity_score⟩
  haveI htr : IsTrans SearchRow (fun a b => b.similarity_score ≤ a.similarity_score) :=
    ⟨fun _ _ _ h1 h2 => le_trans h2 h1⟩
  refine ⟨?_, ?_, ?_⟩
  · intro row hrow
    have h1 : row ∈ (((searchCandidates sim qvec db).filter
        (fun row => decide (minScore ≤ row.similarity_score))).insertionSort
          (fun a b => b.similarity_score ≤ a.similarity_score)) :=
      List.mem_of_mem_take hrow
    have h2 := (List.perm_insertionSort
      (fun a b : SearchRow => b.similarity_score ≤ a.similarity_score) _).mem_iff.mp h1
    have h3 := List.mem_filter.mp h2
    simpa using h3.2
  · exact ((List.sorted_insertionSort _ _).sublist (List.take_sublist _ _))
  · exact List.length_take_le _ _

/-- C6 witness: the contract applied at a concrete database and query. -/
theorem c6_witness :
    (∀ row ∈ vector_search (fun _ _ => (1 : Rat)) [1]
        ((1 : Rat)/2) 5
        { customer_reviews := [], customer_analysis := [],
          review_categories := [], review_tags := [], review_words := [] },
        (1 : Rat)/2 ≤ row.similarity_score) ∧
    List.Sorted (fun a b : SearchRow => b.similarity_score ≤ a.similarity_score)
      (vector_search (fun _ _ => (1 : Rat)) [1] ((1 : Rat)/2) 5
        { customer_reviews := [], customer_analysis := [],
          review_categories := [], review_tags := [], review_words := [] }) ∧
    (vector_search (fun _ _ => (1 : Rat)) [1] ((1 : Rat)/2) 5
        { customer_reviews := [], customer_analysis := [],
          review_categories := [], review_tags := [], review_words := [] }).length ≤ 5 :=
  c6_vector_search_contract (fun _ _ => (1 : Rat)) [1] ((1 : Rat)/2) 5 _

/-! ## Claim C8: chunking reconstruction and segment count -/

theorem tailJoin_cons (s : List Char) (l : List (List Char)) :
    tailJoin (s :: l) = s.drop 30 ++ tailJoin l := by
  simp [tailJoin]

theorem tailJoin_splitText300 (t : List Char) :
    tailJoin (splitText300 t) = t.drop 30 := by
  induction t using splitText300.induct with
  | case1 t h =>
    rw [splitText300, if_pos h]
    simp [tailJoin]
  | case2 t h ih =>
    rw [splitText300, if_neg h, tailJoin_cons, ih]
    rw [List.drop_take, List.drop_drop]
    have e2 : List.drop 270 (List.drop 30 t) = List.drop 300 t := by
      rw [List.drop_drop]
    rw [show (300 : Nat) - 30 = 270 from rfl, ← e2, List.take_append_drop]

theorem splitText300_length (t : List Char) :
    (splitText300 t).length =
      if t.length ≤ 300 then 1 else (t.length - 30 + 269) / 270 := by
  induction t using splitText300.induct with
  | case1 t h =>
    rw [splitText300, if_pos h, if_pos h]
    rfl
  | case2 t h ih =>
    rw [splitText300, if_neg h, if_neg h]
    simp only [List.length_cons, ih, List.length_drop]
    have h' : 300 < t.length := by omega
    split <;> omega

/-- C8: chunking a text of length `L` with max length 300 and overlap 30
produces an ordered segment list whose concatenation with the 30-character
overlaps removed reconstructs the original text, and whose segment count is
1 when `L ≤ 300` and `⌈(L-30)/270⌉` (written `(L - 30 + 269) / 270` in
natural-number arithmetic) when `L > 300`. -/
theorem c8_chunking (t : List Char) :
    reassemble (splitText300 t) = t ∧
    (t.length ≤ 300 → (splitText300 t).length = 1) ∧
    (300 < t.length →
      (splitText300 t).length = (t.length - 30 + 269) / 270) := by
  refine ⟨?_, ?_, ?_⟩
  · by_cases h : t.length ≤ 300
    · rw [splitText300, if_pos h]
      simp [reassemble, tailJoin]
    · rw [splitText300, if_neg h]
      show t.take 300 ++ tailJoin (splitText300 (t.drop 270)) = t
      rw [tailJoin_splitText300, List.drop_drop]
      have : (30 : Nat) + 270 = 300 := by norm_num
      rw [this, List.take_append_drop]
  · intro h
    rw [splitText300_length, if_pos h]
  · intro h
    rw [splitText300_length, if_neg (by omega)]

/-- C8 witness: a 350-character text yields exactly 2 segments, and the
overlap-removing concatenation reconstructs it. -/
theorem c8_witness :
    reassemble (splitText300 (List.replicate 350 'x')) = List.replicate 350 'x' ∧
    (splitText300 (List.replicate 350 'x')).length = 2 := by
  have h := c8_chunking (List.replicate 350 'x')
  refine ⟨h.1, ?_⟩
  have h2 := h.2.2 (by rw [List.length_replicate]; norm_num)
  rw [List.length_replicate] at h2
  norm_num at h2
  exact h2

/-! ## Ingestion-pipeline lemmas -/

theorem insertChunkRows_spec (o : Oracle) (model : String) (r : Review)
    (score : Rat) (chunks : List String) (db : DB) (acc : Nat) :
    ∃ added : List AnalysisRow,
      (insertChunkRows o model r score chunks db acc).1.customer_analysis =
          db.customer_analysis ++ added ∧
      (∀ a ∈ added, a.review_id = r.review_id ∧ a.sentiment_score = score) ∧
      (insertChunkRows o model r score chunks db acc).1.customer_reviews =
          db.customer_reviews ∧
      (insertChunkRows o model r score chunks db acc).1.review_categories =
          db.review_categories ∧
      (insertChunkRows o model r score chunks db acc).1.review_tags =
          db.review_tags ∧
      (insertChunkRows o model r score chunks db acc).1.review_words =
          db.review_words ∧
      ((insertChunkRows o model r score chunks db acc).2.2 = true →
        chunks ≠ [] → added ≠ []) := by
  induction chunks generalizing db acc with
  | nil =>
    exact ⟨[], by simp [insertChunkRows], by simp, rfl, rfl, rfl, rfl,
      by intro _ h; exact absurd rfl h⟩
  | cons c cs ih =>
    cases hm : o.embed model c with
    | error e =>
      have he : insertChunkRows o model r score (c :: cs) db acc = (db, acc, false) := by
        rw [insertChunkRows, hm]
      rw [he]
      exact ⟨[], by simp, by simp, rfl, rfl, rfl, rfl, by simp⟩
    | ok vec =>
      have he : insertChunkRows o model r score (c :: cs) db acc =
          insertChunkRows o model r score cs (insertAnalysis db r c vec score) (acc + 1) := by
        rw [insertChunkRows, hm]
      rw [he]
      obtain ⟨added, h1, h2, h3, h4, h5, h6, _⟩ :=
        ih (insertAnalysis db r c vec score) (acc + 1)
      refine ⟨analysisRowOf r c vec score :: added, ?_, ?_, ?_, ?_, ?_, ?_, ?_⟩
      · rw [h1]; simp [insertAnalysis]
      · intro a ha
        rcases List.mem_cons.mp ha with h | h
        · subst h; exact ⟨rfl, rfl⟩
        · exact h2 a h
      · rw [h3]; rfl
      · rw [h4]; rfl
      · rw [h5]; rfl
      · rw [h6]; rfl
      · intro _ _; simp

theorem processOneReview_spec (o : Oracle) (model : String) (db : DB)
    (r : Review) :
    ∃ added : List AnalysisRow,
      (processOneReview o model db r).1.customer_analysis =
          db.customer_analysis ++ added ∧
      (∀ a ∈ added, a.review_id = r.review_id ∧
        reviewScore o r = some a.sentiment_score) ∧
      (processOneReview o model db r).1.customer_reviews =
          db.customer_reviews ∧
      (processOneReview o model db r).1.review_categories =
          db.review_categories ∧
      (processOneReview o model db r).1.review_tags = db.review_tags ∧
      (processOneReview o model db r).1.review_words = db.review_words ∧
      ((processOneReview o model db r).2.2 = true →
        (∀ s l, o.splitText s = .ok l → l ≠ []) → added ≠ []) := by
  cases ht : o.translate r.review_text with
  | error e =>
    have he : processOneReview o model db r = (db, 0, false) := by
      rw [processOneReview, ht]
    rw [he]
    exact ⟨[], by simp, by simp, rfl, rfl, rfl, rfl, by simp⟩
  | ok translated =>
    cases hs : o.sentiment translated with
    | error e =>
      have he : processOneReview o model db r = (db, 0, false) := by
        simp only [processOneReview, ht, hs]
      rw [he]
      exact ⟨[], by simp, by simp, rfl, rfl, rfl, rfl, by simp⟩
    | ok score =>
      cases hc : o.splitText r.review_text with
      | error e =>
        have he : processOneReview o model db r = (db, 0, false) := by
          simp only [processOneReview, ht, hs, hc]
        rw [he]
        exact ⟨[], by simp, by simp, rfl, rfl, rfl, rfl, by simp⟩
      | ok chunks =>
        have he : processOneReview o model db r =
            insertChunkRows o model r score chunks db 0 := by
          simp only [processOneReview, ht, hs, hc]
        rw [he]
        have hrs : reviewScore o r = some score := by
          simp only [reviewScore, ht, hs]
        obtain ⟨added, h1, h2, h3, h4, h5, h6, h7⟩ :=
          insertChunkRows_spec o model r score chunks db 0
        refine ⟨added, h1, ?_, h3, h4, h5, h6, ?_⟩
        · intro a ha
          refine ⟨(h2 a ha).1, ?_⟩
          rw [hrs, (h2 a ha).2]
        · intro hok hne
          exact h7 hok (hne r.review_text chunks hc)

theorem runReviews_spec (o : Oracle) (model : String) (rs : List Review)
    (db : DB) (acc : Nat) :
    ∃ added : List AnalysisRow,
      (runReviews o model rs db acc).1.customer_analysis =
          db.customer_analysis ++ added ∧
      (∀ a ∈ added, ∃ r ∈ rs, a.review_id = r.review_id ∧
        reviewScore o r = some a.sentiment_score) ∧
      (runReviews o model rs db acc).1.customer_reviews =
          db.customer_reviews ∧
      (runReviews o model rs db acc).1.review_categories =
          db.review_categories ∧
      (runReviews o model rs db acc).1.review_tags = db.review_tags ∧
      (runReviews o model rs db acc).1.review_words = db.review_words ∧
      ((runReviews o model rs db acc).2.2 = true →
        (∀ s l, o.splitText s = .ok l → l ≠ []) →
        ∀ r ∈ rs, ∃ a ∈ (runReviews o model rs db acc).1.customer_analysis,
          a.review_id = r.review_id) := by
  induction rs generalizing db acc with
  | nil => exact ⟨[], by simp [runReviews], by simp, rfl, rfl, rfl, rfl, by simp⟩
  | cons r rest ih =>
    obtain ⟨added₁, g1, g2, g3, g4, g5, g6, g7⟩ :=
      processOneReview_spec o model db r
    rcases hp : processOneReview o model db r with ⟨db₁, n, ok₁⟩
    simp only [hp] at g1 g3 g4 g5 g6 g7
    cases ok₁ with
    | false =>
      have he : runReviews o model (r :: rest) db acc = (db₁, acc + n, false) := by
        rw [runReviews, hp]
      rw [he]
      refine ⟨added₁, g1, ?_, g3, g4, g5, g6, by simp⟩
      intro a ha
      exact ⟨r, List.mem_cons_self r rest, g2 a ha⟩
    | true =>
      have he : runReviews o model (r :: rest) db acc =
          runReviews o model rest db₁ (acc + n) := by
        rw [runReviews, hp]
      rw [he]
      obtain ⟨added₂, k1, k2, k3, k4, k5, k6, k7⟩ := ih db₁ (acc + n)
      refine ⟨added₁ ++ added₂, ?_, ?_, ?_, ?_, ?_, ?_, ?_⟩
      · rw [k1, g1, List.append_assoc]
      · intro a ha
        rcases List.mem_append.mp ha with h | h
        · exact ⟨r, List.mem_cons_self r rest, g2 a h⟩
        · obtain ⟨r', hr', hprop⟩ := k2 a h
          exact ⟨r', List.mem_cons_of_mem r hr', hprop⟩
      · rw [k3, g3]
      · rw [k4, g4]
      · rw [k5, g5]
      · rw [k6, g6]
      · intro hok hsplit r' hr'
        rcases List.mem_cons.mp hr' with h | h
        · subst h
          have hne := g7 rfl hsplit
          obtain ⟨a, ha⟩ := List.exists_mem_of_ne_nil added₁ hne
          refine ⟨a, ?_, (g2 a ha).1⟩
          rw [k1, g1, List.append_assoc]
          exact List.mem_append_right _ (List.mem_append_left _ ha)
        · exact k7 hok hsplit r' h

/-! ## Claim C2: per-review failure handling in the ingestion pipeline -/

/-- C2 counterexample: with an oracle that throws only on review A's
translation, the run returns `False` and writes nothing at all — review B
is never reached, even though processing B alone would have succeeded.
This refutes the claim that a failure on a single review lets the batch
continue with the next review. -/
theorem c2_counterexample :
    (process_review_chunks oFailA "m" dbAB).ok = false ∧
    (process_review_chunks oFailA "m" dbAB).db = dbAB ∧
    (processOneReview oFailA "m" dbAB rvB).2.2 = true := by
  decide

/-- C2 (amended): a failure while processing a single review aborts the
entire ingestion run: the remaining selected reviews are not processed, and
the function surfaces the error by returning `False`. -/
theorem c2_single_failure_aborts_run (o : Oracle) (model : String) (db : DB)
    (r : Review) (rest : List Review) (acc : Nat)
    (hfail : (processOneReview o model db r).2.2 = false) :
    runReviews o model (r :: rest) db acc =
      ((processOneReview o model db r).1,
        acc + (processOneReview o model db r).2.1, false) ∧
    (notYetAnalyzed db = r :: rest →
      (process_review_chunks o model db).ok = false ∧
      (process_review_chunks o model db).db = (processOneReview o model db r).1) := by
  rcases hp : processOneReview o model db r with ⟨db₁, n, ok₁⟩
  have hok : ok₁ = false := by rw [hp] at hfail; exact hfail
  subst hok
  have heGen : ∀ a : Nat, runReviews o model (r :: rest) db a = (db₁, a + n, false) := by
    intro a; rw [runReviews, hp]
  refine ⟨by rw [heGen acc], ?_⟩
  intro hsel
  have h0 := heGen 0
  constructor
  · simp [process_review_chunks, hsel, h0, hp]
  · simp [process_review_chunks, hsel, h0, hp]

/-- C2 witness: the amended behaviour at the concrete failing input. -/
theorem c2_witness :
    runReviews oFailA "m" [rvA, rvB] dbAB 0 =
      ((processOneReview oFailA "m" dbAB rvA).1,
        0 + (processOneReview oFailA "m" dbAB rvA).2.1, false) ∧
    (notYetAnalyzed dbAB = rvA :: [rvB] →
      (process_review_chunks oFailA "m" dbAB).ok = false ∧
      (process_review_chunks oFailA "m" dbAB).db =
        (processOneReview oFailA "m" dbAB rvA).1) :=
  c2_single_failure_aborts_run oFailA "m" dbAB rvA [rvB] 0 (by decide)

/-! ## Claim C4: ingestion idempotence at review-id level -/

/-- C4: after a successful ingestion run (with a chunker that never returns
an empty segment list), a second run selects zero reviews and writes zero
new `CUSTOMER_ANALYSIS` rows: every review id already appears in the
segment table, so the left-anti-join excludes all reviews. -/
theorem c4_second_run_selects_nothing (o : Oracle) (model : String) (db : DB)
    (hok : (process_review_chunks o model db).ok = true)
    (hsplit : ∀ s l, o.splitText s = .ok l → l ≠ []) :
    notYetAnalyzed (process_review_chunks o model db).db = [] ∧
    process_review_chunks o model (process_review_chunks o model db).db =
      { db := (process_review_chunks o model db).db, ok := true,
        reviewsSelected := 0, chunksProcessed := 0 } := by
  have hmain : notYetAnalyzed (process_review_chunks o model db).db = [] := by
    by_cases hemp : (notYetAnalyzed db).isEmpty = true
    · have hnil : notYetAnalyzed db = [] := by
        cases h : notYetAnalyzed db with
        | nil => rfl
        | cons x xs => rw [h] at hemp; simp at hemp
      have hdb : (process_review_chunks o model db).db = db := by
        simp [process_review_chunks, hemp]
      rw [hdb, hnil]
    · rcases hr : runReviews o model (notYetAnalyzed db) db 0 with ⟨db₁, n, okk⟩
      obtain ⟨added, h1, _, h3, _, _, _, h7⟩ :=
        runReviews_spec o model (notYetAnalyzed db) db 0
      simp only [hr] at h1 h3 h7
      have hres : (process_review_chunks o model db).db = db₁ := by
        simp [process_review_chunks, hemp, hr]
      have hokk : okk = true := by
        have h := hok
        simp [process_review_chunks, hemp, hr] at h
        exact h
      rw [hres]
      rw [notYetAnalyzed, List.filter_eq_nil_iff]
      intro r hrmem
      rw [h3] at hrmem
      simp only [decide_eq_true_eq, not_forall]
      by_cases hrsel : r ∈ notYetAnalyzed db
      · obtain ⟨a, ha, haid⟩ := h7 hokk hsplit r hrsel
        exact ⟨a, ha, by simp [haid]⟩
      · have : ¬ (∀ a ∈ db.customer_analysis, a.review_id ≠ r.review_id) := by
          intro hall
          exact hrsel (List.mem_filter.mpr ⟨hrmem, by simpa using hall⟩)
        push_neg at this
        obtain ⟨a, ha, haid⟩ := this
        exact ⟨a, by rw [h1]; exact List.mem_append_left _ ha, by simp [haid]⟩
  refine ⟨hmain, ?_⟩
  generalize hA : (process_review_chunks o model db).db = A at hmain ⊢
  simp [process_review_chunks, hmain]

/-- C4 witness: the idempotence conclusion at a concrete database and a
concrete all-succeeding oracle. -/
theorem c4_witness :
    notYetAnalyzed (process_review_chunks oBase "m" dbAB).db = [] ∧
    process_review_chunks oBase "m" (process_review_chunks oBase "m" dbAB).db =
      { db := (process_review_chunks oBase "m" dbAB).db, ok := true,
        reviewsSelected := 0, chunksProcessed := 0 } :=
  c4_second_run_selects_nothing oBase "m" dbAB (by decide)
    (by
      intro s l h
      simp only [oBase] at h
      injection h with h2
      rw [← h2]
      simp)

/-! ## Claim C5: one sentiment score per review -/

/-- C5: every `CUSTOMER_ANALYSIS` row written by an ingestion run belongs
to a selected review and carries that review's single sentiment score — the
SENTIMENT of the TRANSLATE of the full review text, computed before the
review's segments are inserted — so (with distinct review ids) any two rows
written for the same review carry the same score. -/
theorem c5_one_score_per_review (o : Oracle) (model : String) (db : DB)
    (hids : (db.customer_reviews.map Review.review_id).Nodup) :
    ∃ added : List AnalysisRow,
      (process_review_chunks o model db).db.customer_analysis =
          db.customer_analysis ++ added ∧
      (∀ a ∈ added, ∃ r ∈ notYetAnalyzed db, a.review_id = r.review_id ∧
          reviewScore o r = some a.sentiment_score) ∧
      (∀ a ∈ added, ∀ b ∈ added, a.review_id = b.review_id →
          a.sentiment_score = b.sentiment_score) := by
  by_cases hemp : (notYetAnalyzed db).isEmpty = true
  · refine ⟨[], ?_, by simp, by simp⟩
    simp [process_review_chunks, hemp]
  · rcases hr : runReviews o model (notYetAnalyzed db) db 0 with ⟨db₁, n, okk⟩
    obtain ⟨added, h1, h2, _, _, _, _, _⟩ :=
      runReviews_spec o model (notYetAnalyzed db) db 0
    simp only [hr] at h1
    have hres : (process_review_chunks o model db).db = db₁ := by
      simp [process_review_chunks, hemp, hr]
    refine ⟨added, by rw [hres]; exact h1, h2, ?_⟩
    intro a ha b hb hab
    obtain ⟨ra, hra, haid, hasc⟩ := h2 a ha
    obtain ⟨rb, hrb, hbid, hbsc⟩ := h2 b hb
    have hnd : ((notYetAnalyzed db).map Review.review_id).Nodup :=
      List.Nodup.sublist ((List.filter_sublist _).map Review.review_id) hids
    have hrr : ra = rb :=
      List.inj_on_of_nodup_map hnd hra hrb (by rw [← haid, ← hbid, hab])
    subst hrr
    have := hasc.symm.trans hbsc
    exact Option.some.inj this

/-- C5 witness: the per-review score invariant at a concrete database. -/
theorem c5_witness :
    ∃ added : List AnalysisRow,
      (process_review_chunks oBase "m" dbAB).db.customer_analysis =
          dbAB.customer_analysis ++ added ∧
      (∀ a ∈ added, ∃ r ∈ notYetAnalyzed dbAB, a.review_id = r.review_id ∧
          reviewScore oBase r = some a.sentiment_score) ∧
      (∀ a ∈ added, ∀ b ∈ added, a.review_id = b.review_id →
          a.sentiment_score = b.sentiment_score) :=
  c5_one_score_per_review oBase "m" dbAB (by decide)

/-! ## Classification-pipeline lemmas -/

theorem tagLoop_spec (o : Oracle) (cats : List String) (rs : List Review)
    (db : DB) (p s : Nat) :
    (tagLoop o cats rs db p s).2.1 = p + rs.length ∧
    (tagLoop o cats rs db p s).2.2 ≤ s + rs.length ∧
    (tagLoop o cats rs db p s).1.customer_reviews = db.customer_reviews ∧
    (tagLoop o cats rs db p s).1.customer_analysis = db.customer_analysis ∧
    (tagLoop o cats rs db p s).1.review_categories = db.review_categories ∧
    (tagLoop o cats rs db p s).1.review_words = db.review_words ∧
    ∃ added : List TagRow,
      (tagLoop o cats rs db p s).1.review_tags = db.review_tags ++ added ∧
      (∀ t ∈ added, ∃ r ∈ rs, t.review_id = r.review_id ∧
        ∃ resp, o.classify r.review_text cats = .ok resp ∧
          t.category_name = resp.getD "その他" ∧ t.confidence_score = 1) ∧
      ((∀ r ∈ rs, ∃ e, o.classify r.review_text cats = .error e) →
        added = [] ∧ (tagLoop o cats rs db p s).2.2 = s) := by
  induction rs generalizing db p s with
  | nil =>
    refine ⟨by simp [tagLoop], by simp [tagLoop], rfl, rfl, rfl, rfl,
      [], by simp [tagLoop], by simp, fun _ => ⟨rfl, by simp [tagLoop]⟩⟩
  | cons r rest ih =>
    cases hc : o.classify r.review_text cats with
    | error e =>
      have he : tagLoop o cats (r :: rest) db p s =
          tagLoop o cats rest db (p + 1) s := by
        rw [tagLoop, hc]
      rw [he]
      obtain ⟨k1, k2, k3, k4, k5, k6, added, k7, k8, k9⟩ := ih db (p + 1) s
      refine ⟨by rw [k1]; simp; omega, by simp only [List.length_cons]; omega,
        k3, k4, k5, k6, added, k7, ?_, ?_⟩
      · intro t ht
        obtain ⟨r', hr', hprop⟩ := k8 t ht
        exact ⟨r', List.mem_cons_of_mem r hr', hprop⟩
      · intro hall
        exact k9 (fun r' hr' => hall r' (List.mem_cons_of_mem r hr'))
    | ok resp =>
      have he : tagLoop o cats (r :: rest) db p s =
          tagLoop o cats rest (insertTag db r.review_id (resp.getD "その他"))
            (p + 1) (s + 1) := by
        rw [tagLoop, hc]
      rw [he]
      obtain ⟨k1, k2, k3, k4, k5, k6, added, k7, k8, k9⟩ :=
        ih (insertTag db r.review_id (resp.getD "その他")) (p + 1) (s + 1)
      refine ⟨by rw [k1]; simp; omega, by simp at k2 ⊢; omega, k3, k4, k5, k6,
        { review_id := r.review_id, category_name := resp.getD "その他",
          confidence_score := 1 } :: added, ?_, ?_, ?_⟩
      · rw [k7]
        simp [insertTag]
      · intro t ht
        rcases List.mem_cons.mp ht with h | h
        · subst h
          exact ⟨r, List.mem_cons_self r rest, rfl, resp, hc, rfl, rfl⟩
        · obtain ⟨r', hr', hprop⟩ := k8 t h
          exact ⟨r', List.mem_cons_of_mem r hr', hprop⟩
      · intro hall
        obtain ⟨e, he'⟩ := hall r (List.mem_cons_self r rest)
        rw [hc] at he'
        exact absurd he' (by simp)

/-! ## Claim C10: classification pipeline reports overall success -/

/-- C10: whenever at least one category is registered, the classification
run returns `True`; the success count never exceeds the processed count,
and if every per-review classification call throws, no tag row is written
and the success count is zero while the run still returns `True`. -/
theorem c10_overall_true (o : Oracle) (db : DB)
    (hcats : db.review_categories ≠ []) :
    (generate_review_tags o db).ok = true ∧
    (generate_review_tags o db).successCount ≤
        (generate_review_tags o db).processedCount ∧
    ((∀ r ∈ untaggedReviews db, ∃ e,
        o.classify r.review_text (get_review_categories db) = .error e) →
      (generate_review_tags o db).db.review_tags = db.review_tags ∧
      (generate_review_tags o db).successCount = 0) := by
  have hperm := List.perm_insertionSort (fun a b : String => a ≤ b) db.review_categories
  have hne : get_review_categories db ≠ [] := by
    intro h
    rw [get_review_categories] at h
    rw [h] at hperm
    exact hcats hperm.symm.eq_nil
  have hemp : (get_review_categories db).isEmpty = false := by
    cases h : get_review_categories db with
    | nil => exact absurd h hne
    | cons x xs => rfl
  by_cases hrev : (untaggedReviews db).isEmpty = true
  · refine ⟨?_, ?_, fun _ => ⟨?_, ?_⟩⟩ <;>
      simp [generate_review_tags, hemp, hrev]
  · have hrev' : (untaggedReviews db).isEmpty = false := by
      cases h : (untaggedReviews db).isEmpty with
      | false => rfl
      | true => exact absurd h hrev
    obtain ⟨k1, k2, _, _, _, _, added, k7, _, k9⟩ :=
      tagLoop_spec o (get_review_categories db) (untaggedReviews db) db 0 0
    have hres : generate_review_tags o db =
        { db := (tagLoop o (get_review_categories db) (untaggedReviews db) db 0 0).1,
          ok := true,
          processedCount :=
            (tagLoop o (get_review_categories db) (untaggedReviews db) db 0 0).2.1,
          successCount :=
            (tagLoop o (get_review_categories db) (untaggedReviews db) db 0 0).2.2 } := by
      simp [generate_review_tags, hemp, hrev']
    refine ⟨by rw [hres], by rw [hres]; simpa [k1] using k2, ?_⟩
    intro hall
    obtain ⟨hadded, hsucc⟩ := k9 hall
    subst hadded
    rw [hres]
    exact ⟨by simpa using k7, hsucc⟩

/-- C10 witness: with one registered category and a classifier that always
throws, the run still returns `True`, writes no tag and reports zero
successes. -/
theorem c10_witness :
    (generate_review_tags oClassifyFail dbA).ok = true ∧
    (generate_review_tags oClassifyFail dbA).successCount ≤
        (generate_review_tags oClassifyFail dbA).processedCount ∧
    ((∀ r ∈ untaggedReviews dbA, ∃ e,
        oClassifyFail.classify r.review_text (get_review_categories dbA) = .error e) →
      (generate_review_tags oClassifyFail dbA).db.review_tags = dbA.review_tags ∧
      (generate_review_tags oClassifyFail dbA).successCount = 0) :=
  c10_overall_true oClassifyFail dbA (by decide)

/-! ## Claim C3: inserted tag categories -/

/-- C3 counterexample: with one registered category 価格, a classifier
response carrying the label 未登録カテゴリ — present and usable, but not a
member of the category set loaded at the start of the run — is inserted
as-is: the pipeline writes a tag whose category is neither a member of the
loaded category set nor the designated fallback, refuting the claim. -/
theorem c3_counterexample :
    (generate_review_tags oBadLabel dbA).db.review_tags =
      [{ review_id := "A", category_name := "未登録カテゴリ",
         confidence_score := 1 }] ∧
    "未登録カテゴリ" ∉ get_review_categories dbA ∧
    "未登録カテゴリ" ≠ "その他" := by
  refine ⟨?_, ?_, ?_⟩ <;> decide

/-- C3 (amended): every tag row written by a classification run carries
exactly the label parsed from the classifier's response — inserted with no
membership check against the loaded category set — or the fallback その他
when the response contains no label, always with confidence 1.0. -/
theorem c3_inserted_label_or_fallback (o : Oracle) (db : DB) :
    ∃ added : List TagRow,
      (generate_review_tags o db).db.review_tags = db.review_tags ++ added ∧
      ∀ t ∈ added, ∃ r ∈ untaggedReviews db, t.review_id = r.review_id ∧
        ∃ resp, o.classify r.review_text (get_review_categories db) = .ok resp ∧
          t.category_name = resp.getD "その他" ∧ t.confidence_score = 1 := by
  by_cases hemp : (get_review_categories db).isEmpty = true
  · exact ⟨[], by simp [generate_review_tags, hemp], by simp⟩
  · have hemp' : (get_review_categories db).isEmpty = false := by
      cases h : (get_review_categories db).isEmpty with
      | false => rfl
      | true => exact absurd h hemp
    by_cases hrev : (untaggedReviews db).isEmpty = true
    · exact ⟨[], by simp [generate_review_tags, hemp', hrev], by simp⟩
    · have hrev' : (untaggedReviews db).isEmpty = false := by
        cases h : (untaggedReviews db).isEmpty with
        | false => rfl
        | true => exact absurd h hrev
      obtain ⟨_, _, _, _, _, _, added, k7, k8, _⟩ :=
        tagLoop_spec o (get_review_categories db) (untaggedReviews db) db 0 0
      refine ⟨added, ?_, k8⟩
      simp [generate_review_tags, hemp', hrev', k7]

/-- C3 witness: the amended statement at the concrete bad-label input. -/
theorem c3_witness :
    ∃ added : List TagRow,
      (generate_review_tags oBadLabel dbA).db.review_tags =
        dbA.review_tags ++ added ∧
      ∀ t ∈ added, ∃ r ∈ untaggedReviews dbA, t.review_id = r.review_id ∧
        ∃ resp, oBadLabel.classify r.review_text (get_review_categories dbA) =
            .ok resp ∧
          t.category_name = resp.getD "その他" ∧ t.confidence_score = 1 :=
  c3_inserted_label_or_fallback oBadLabel dbA

/-! ## Keyword-extraction lemmas -/

theorem insertWords_spec (rid : Option String) (ws : List RawWord) (db : DB)
    (c : Nat) :
    (insertWords rid ws db c).1.review_words =
        db.review_words ++ (validWords ws).map (wordRowOf rid) ∧
    (insertWords rid ws db c).1.customer_reviews = db.customer_reviews ∧
    (insertWords rid ws db c).1.customer_analysis = db.customer_analysis ∧
    (insertWords rid ws db c).1.review_categories = db.review_categories ∧
    (insertWords rid ws db c).1.review_tags = db.review_tags := by
  induction ws generalizing db c with
  | nil => exact ⟨by simp [insertWords, validWords], rfl, rfl, rfl, rfl⟩
  | cons w ws ih =>
    obtain ⟨ow, ot, of⟩ := w
    cases ow <;> cases ot <;> cases of <;>
      simp only [insertWords, validWords, List.filterMap_cons] <;>
      refine ⟨?_, ?_, ?_, ?_, ?_⟩ <;>
      simp [validWords] at ih ⊢ <;>
      simp [(ih _ _).1, (ih _ _).2.1, (ih _ _).2.2.1, (ih _ _).2.2.2.1,
        (ih _ _).2.2.2.2, insertWord, wordRowOf]

theorem processEntries_spec (batch : List Review) (entries : List RawEntry)
    (p : Nat) (db : DB) (c : Nat) :
    (processEntries batch entries p db c).1.review_words =
        db.review_words ++ entriesRows batch p entries ∧
    (processEntries batch entries p db c).1.customer_reviews =
        db.customer_reviews ∧
    (processEntries batch entries p db c).1.customer_analysis =
        db.customer_analysis ∧
    (processEntries batch entries p db c).1.review_categories =
        db.review_categories ∧
    (processEntries batch entries p db c).1.review_tags = db.review_tags := by
  induction entries generalizing p db c with
  | nil => exact ⟨by simp [processEntries, entriesRows], rfl, rfl, rfl, rfl⟩
  | cons e rest ih =>
    rcases hiw : insertWords (reconcileId batch p e.review_id) e.words db c
      with ⟨db', c'⟩
    obtain ⟨w1, w2, w3, w4, w5⟩ :=
      insertWords_spec (reconcileId batch p e.review_id) e.words db c
    simp only [hiw] at w1 w2 w3 w4 w5
    have he : processEntries batch (e :: rest) p db c =
        processEntries batch rest (p + 1) db' c' := by
      simp only [processEntries, hiw]
    rw [he]
    obtain ⟨k1, k2, k3, k4, k5⟩ := ih (p + 1) db' c'
    refine ⟨?_, by rw [k2, w2], by rw [k3, w3], by rw [k4, w4], by rw [k5, w5]⟩
    rw [k1, w1, entriesRows, entryRows, List.append_assoc]

/-! ## Claim C9: id reconciliation in keyword extraction -/

/-- C9: a parsed result entry at position `p` whose review id is missing
(Python-falsy) or matches no id of the batch is reassigned the id of the
batch review at position `p` exactly when `p < |batch|`; past the end of
the batch it keeps its original id, which (given non-empty batch ids)
references no review of the batch — and the rows inserted for the entry all
carry the reconciled id. -/
theorem c9_id_reconciliation (batch : List Review) (entries : List RawEntry)
    (db : DB) (c p : Nat) (e : RawEntry)
    (hpos : entries[p]? = some e)
    (hmu : ridMissingOrUnmatched batch e.review_id = true)
    (hids : ∀ r ∈ batch, r.review_id ≠ "") :
    (processEntries batch entries 0 db c).1.review_words =
        db.review_words ++ entriesRows batch 0 entries ∧
    (∀ row ∈ entryRows batch p e,
        row.review_id = reconcileId batch p e.review_id) ∧
    (∀ h : p < batch.length,
        reconcileId batch p e.review_id = some (batch.get ⟨p, h⟩).review_id) ∧
    (batch.length ≤ p →
        reconcileId batch p e.review_id = e.review_id ∧
        ∀ r ∈ batch, e.review_id ≠ some r.review_id) := by
  refine ⟨(processEntries_spec batch entries 0 db c).1, ?_, ?_, ?_⟩
  · intro row hrow
    simp only [entryRows, List.mem_map] at hrow
    obtain ⟨x, _, hx⟩ := hrow
    rw [← hx]
    rfl
  · intro h
    rw [reconcileId, if_pos hmu, List.getElem?_eq_getElem h]
    simp
  · intro h
    have hnone : batch[p]? = none := by
      rw [List.getElem?_eq_none h]
    refine ⟨by rw [reconcileId, if_pos hmu, hnone], ?_⟩
    intro r hr
    cases hrid : e.review_id with
    | none => simp
    | some s =>
      rw [hrid] at hmu
      simp only [ridMissingOrUnmatched, ridFalsy, Bool.or_eq_true, beq_iff_eq,
        decide_eq_true_eq] at hmu
      rcases hmu with h1 | h2
      · subst h1
        intro hcontra
        exact hids r hr (Option.some.inj hcontra).symm
      · intro hcontra
        exact h2 r hr (Option.some.inj hcontra).symm

/-- C9 witness: the reconciliation behaviour at a one-review batch and an
entry carrying the foreign id ZZZ. -/
theorem c9_witness :
    (processEntries [rvA] [entZ] 0 dbA 0).1.review_words =
        dbA.review_words ++ entriesRows [rvA] 0 [entZ] ∧
    (∀ row ∈ entryRows [rvA] 0 entZ,
        row.review_id = reconcileId [rvA] 0 entZ.review_id) ∧
    (∀ h : 0 < [rvA].length,
        reconcileId [rvA] 0 entZ.review_id =
          some ([rvA].get ⟨0, h⟩).review_id) ∧
    ([rvA].length ≤ 0 →
        reconcileId [rvA] 0 entZ.review_id = entZ.review_id ∧
        ∀ r ∈ [rvA], entZ.review_id ≠ some r.review_id) :=
  c9_id_reconciliation [rvA] [entZ] dbA 0 0 entZ (by decide) (by decide)
    (by decide)

/-! ## Claim C1: failed keyword-extraction batches -/

theorem toBatches_length_sum (l : List Review) :
    ((toBatches l).map List.length).sum = l.length := by
  induction l using toBatches.induct with
  | case1 => simp [toBatches]
  | case2 x xs ih =>
    rw [toBatches]
    simp only [List.map_cons, List.sum_cons, ih, List.length_take,
      List.length_drop, List.length_cons]
    omega

theorem extractLoop_allfail (o : Oracle) (model : String)
    (batches : List (List Review)) (db : DB) (p w : Nat)
    (hfail : ∀ m input, ∃ e, o.complete m input = .error e) :
    extractLoop o model batches db p w =
      (db, p + (batches.map List.length).sum, w) := by
  induction batches generalizing db p w with
  | nil => simp [extractLoop]
  | cons batch rest ih =>
    obtain ⟨e, he⟩ :=
      hfail model (batch.map (fun r => (r.review_id, r.review_text)))
    have hstep : extractLoop o model (batch :: rest) db p w =
        extractLoop o model rest db (p + batch.length) w := by
      rw [extractLoop, he]
    rw [hstep, ih]
    simp [Nat.add_assoc]

/-- C1 counterexample: one review, a COMPLETE call that always throws.  The
run counts the review as processed and writes zero keyword rows — but a
subsequent run still selects the review (the anti-join does not exclude
it), refuting the claim that failed-batch reviews are not selected again. -/
theorem c1_counterexample :
    (extract_important_words oCompleteFail "m" dbA).processedCount = 1 ∧
    (extract_important_words oCompleteFail "m" dbA).db.review_words = [] ∧
    notYetExtracted (extract_important_words oCompleteFail "m" dbA).db =
      [rvA] := by
  have hsel : notYetExtracted dbA = [rvA] := by decide
  have hb : toBatches [rvA] = [[rvA]] := by
    rw [toBatches]
    show [rvA] :: toBatches [] = [[rvA]]
    rw [toBatches]
  have hloop : extractLoop oCompleteFail "m" [[rvA]] dbA 0 0 = (dbA, 1, 0) := by
    have hstep : extractLoop oCompleteFail "m" [[rvA]] dbA 0 0 =
        extractLoop oCompleteFail "m" [] dbA (0 + 1) 0 := by
      rw [extractLoop]
      rfl
    rw [hstep, extractLoop]
  have hrun : extract_important_words oCompleteFail "m" dbA =
      { db := dbA, ok := true, processedCount := 1, wordsExtracted := 0 } := by
    simp [extract_important_words, hsel, hb, hloop]
  exact ⟨by rw [hrun], by rw [hrun]; rfl, by rw [hrun]; exact hsel⟩

/-- C1 (amended): when the structured-generation call throws, the batch's
reviews are counted as processed and zero keyword rows are written for them
— but because no `REVIEW_WORDS` row exists for them, the anti-join does
*not* exclude them and a subsequent run selects the same reviews again. -/
theorem c1_failed_batch_reviews_selected_again (o : Oracle) (model : String)
    (db : DB)
    (hfail : ∀ m input, ∃ e, o.complete m input = .error e) :
    (extract_important_words o model db).processedCount =
        (notYetExtracted db).length ∧
    (extract_important_words o model db).db = db ∧
    notYetExtracted (extract_important_words o model db).db =
        notYetExtracted db := by
  by_cases hemp : (notYetExtracted db).isEmpty = true
  · have hnil : notYetExtracted db = [] := by
      cases h : notYetExtracted db with
      | nil => rfl
      | cons x xs => rw [h] at hemp; simp at hemp
    refine ⟨?_, ?_, ?_⟩ <;> simp [extract_important_words, hemp, hnil]
  · have hemp' : (notYetExtracted db).isEmpty = false := by
      cases h : (notYetExtracted db).isEmpty with
      | false => rfl
      | true => exact absurd h hemp
    have hloop :=
      extractLoop_allfail o model (toBatches (notYetExtracted db)) db 0 0 hfail
    have hrun : extract_important_words o model db =
        { db := db, ok := true,
          processedCount := (notYetExtracted db).length,
          wordsExtracted := 0 } := by
      simp [extract_important_words, hemp', hloop, toBatches_length_sum]
    exact ⟨by rw [hrun], by rw [hrun], by rw [hrun]⟩

/-- C1 witness: the amended statement at the concrete failing input. -/
theorem c1_witness :
    (extract_important_words oCompleteFail "m" dbA).processedCount =
        (notYetExtracted dbA).length ∧
    (extract_important_words oCompleteFail "m" dbA).db = dbA ∧
    notYetExtracted (extract_important_words oCompleteFail "m" dbA).db =
        notYetExtracted dbA :=
  c1_failed_batch_reviews_selected_again oCompleteFail "m" dbA
    (fun _ _ => ⟨"boom", rfl⟩)

end SnowRetail
